import Mathlib

/-!
Shallow embedding of the pydash chain engine, path tokenizer and utility
wrappers (`attempt`, `retry`, `memoize`), with theorems checking the
specification's claims against the embedded code.

Sources embedded:
- `pydash/chaining.py` (`Chain`, `ChainWrapper`, `chain`)
- `src/pydash/utilities.py` (`attempt`, `memoize`, `retry`, `to_path_tokens`,
  `unescape_path_key`, and the regexes `RE_PATH_KEY_DELIM` and
  `RE_PATH_LIST_INDEX`)
-/

/-! ## Chain engine (`pydash/chaining.py`)

A `Chain` holds a single value slot `_value`, which is either a plain seed
value or a `ChainWrapper`.  A `ChainWrapper` holds its own `_value` (again a
plain value or another `ChainWrapper`), a registry method, and the captured
positional args.  For the straight-line chains the claims are about, this is
the inductive type `CW`: keyword arguments play no role in the claims and the
captured positional args are a `List α`. -/

/-- A chain value as built by `pydash.chaining`: either a seeded plain value
(`Chain(value)` with a non-wrapper payload) or a pending `ChainWrapper` node
holding its upstream `_value`, its registry method name and its captured
args. -/
inductive CW (α : Type) (ρ : Type) where
  | base (v : α)
  | node (up : CW α ρ) (op : ρ) (args : List α)
deriving DecidableEq

/-- `ChainWrapper.unwrap` (and `Chain.value` on a wrapper), instrumented with
the invocation trace: it first resolves the upstream `_value` (recursively
unwrapping when it is itself a `ChainWrapper`), then invokes
`method(resolved_value, *args)` through the registry interpretation `interp`.
The second component records each `(method, args)` invocation in execution
order. -/
def unwrapT (interp : ρ → α → List α → α) : CW α ρ → α × List (ρ × List α)
  | .base v => (v, [])
  | .node up op args =>
    let r := unwrapT interp up
    (interp op r.1 args, r.2 ++ [(op, args)])

/-- Builds `chain(seed).op₁(args₁)⋯opₙ(argsₙ)`: each registry call wraps the
previous chain's `_value` in a new `ChainWrapper` node (this is what
`Chain.__getattr__` followed by `ChainWrapper.__call__` produces). -/
def buildChain (seed : α) (calls : List (ρ × List α)) : CW α ρ :=
  calls.foldl (fun c pr => CW.node c pr.1 pr.2) (CW.base seed)

/-- Eager composition of the same calls in source order. -/
def eagerCompose (interp : ρ → α → List α → α) (seed : α) (calls : List (ρ × List α)) : α :=
  calls.foldl (fun v pr => interp pr.1 v pr.2) seed

/-- Modelled from the spec: the registry functions `add` and `multiply`
(the numerical module is not under `src/`); each is a pure function
`f(value, *args) -> value`, with `add(v, x) = v + x` and
`multiply(v, x) = v * x`.  Any other name or arity leaves the value
unchanged. -/
def specRegistry : String → Int → List Int → Int := fun name v args =>
  match name, args with
  | "add", [x] => v + x
  | "multiply", [x] => v * x
  | _, _ => v

theorem unwrapT_foldl (interp : ρ → α → List α → α) (calls : List (ρ × List α))
    (c : CW α ρ) :
    unwrapT interp (calls.foldl (fun c pr => CW.node c pr.1 pr.2) c) =
      (eagerCompose interp (unwrapT interp c).1 calls, (unwrapT interp c).2 ++ calls) := by
  induction calls generalizing c with
  | nil => simp [eagerCompose]
  | cons pr rest ih =>
    simp only [List.foldl_cons, eagerCompose] at *
    rw [ih]
    simp [unwrapT]

/-- C1: resolving a chain of `n` registry calls with `Chain.value` invokes each
operation exactly once, innermost/earliest first (the invocation trace equals
the source-order call list), and the result equals eagerly composing the same
`n` calls in source order; in particular the chain
`chain(3).add(4).multiply(2)` resolves, with the registry functions `add` and
`multiply`, to `multiply(add(3, 4), 2) = 14`. -/
theorem chain_value_eq_eager_composition :
    (∀ (α ρ : Type) (interp : ρ → α → List α → α) (seed : α)
        (calls : List (ρ × List α)),
      unwrapT interp (buildChain seed calls) =
        (eagerCompose interp seed calls, calls)) ∧
    unwrapT specRegistry (buildChain 3 [("add", [4]), ("multiply", [2])]) =
      (specRegistry "multiply" (specRegistry "add" 3 [4]) [2],
        [("add", [4]), ("multiply", [2])]) ∧
    specRegistry "multiply" (specRegistry "add" 3 [4]) [2] = 14 := by
  refine ⟨fun α ρ interp seed calls => ?_, by rfl, by rfl⟩
  rw [buildChain, unwrapT_foldl]
  simp [unwrapT]

/-! ## `Chain.__getattr__` (C2) -/

/-- Modelled from the spec: the `InvalidMethod` error object (the exceptions
module is not under `src/`); it carries the message built at the raise site,
which names the requested attribute. -/
structure InvalidMethod where
  message : String
deriving DecidableEq

/-- An attribute of the `pydash` module as observed by
`getattr(pyd, attr, None)` followed by the `callable(method)` test: either a
callable registry function or a non-callable module attribute. -/
inductive PydAttr (ρ : Type) where
  | callableFn (f : ρ)
  | nonCallable
deriving DecidableEq

/-- A `ChainWrapper` as freshly built by `Chain.__getattr__`: the chain's
current (still unresolved) `_value` together with the resolved method; args
are only captured later by `ChainWrapper.__call__`. -/
structure Builder (α : Type) (ρ : Type) where
  value : CW α ρ
  method : ρ
deriving DecidableEq

/-- `Chain.__getattr__`: looks `attr` up on the `pydash` module
(`getattr(pyd, attr, None)`); if the result is callable it returns
`ChainWrapper(self._value, method)` — note it passes the unresolved `_value`
on, performing no finalization — otherwise it raises
`InvalidMethod('Invalid pydash method: {0}'.format(attr))`.  The outcome is
a function of the lookup alone, produced at access (build) time. -/
def chainGetattr (lookup : String → Option (PydAttr ρ)) (c : CW α ρ)
    (attr : String) : Except InvalidMethod (Builder α ρ) :=
  match lookup attr with
  | some (.callableFn f) => .ok ⟨c, f⟩
  | _ => .error ⟨"Invalid pydash method: " ++ attr⟩

/-- C2: accessing a name that is not registered as a callable (absent, or
present but not callable) on a chain yields the `InvalidMethod` error naming
the requested attribute, directly from the access itself (no finalize/value
call is involved: the result is produced by `chainGetattr` alone, over the
still-unresolved chain value); accessing a registered callable name instead
succeeds with a pending builder carrying that callable. -/
theorem chain_getattr_invalid_method :
    (∀ (α ρ : Type) (lookup : String → Option (PydAttr ρ)) (c : CW α ρ)
        (attr : String), lookup attr = none →
      chainGetattr lookup c attr =
        .error ⟨"Invalid pydash method: " ++ attr⟩) ∧
    (∀ (α ρ : Type) (lookup : String → Option (PydAttr ρ)) (c : CW α ρ)
        (attr : String), lookup attr = some .nonCallable →
      chainGetattr lookup c attr =
        .error ⟨"Invalid pydash method: " ++ attr⟩) ∧
    (∀ (α ρ : Type) (lookup : String → Option (PydAttr ρ)) (c : CW α ρ)
        (attr : String) (f : ρ), lookup attr = some (.callableFn f) →
      chainGetattr lookup c attr = .ok ⟨c, f⟩) := by
  refine ⟨?_, ?_, ?_⟩ <;>
    · intros α ρ lookup c attr
      intros
      simp_all [chainGetattr]

/-- Concrete instance of C2: a registry exposing only `add` as a callable; the
access `chain(1).not_a_real_fn` fails with `InvalidMethod` naming
`not_a_real_fn`, while `chain(1).add` succeeds with a builder. -/
theorem chain_getattr_invalid_method_witness :
    chainGetattr (ρ := String) (α := Int)
        (fun s => if s = "add" then some (.callableFn "add") else none)
        (.base 1) "not_a_real_fn" =
      .error ⟨"Invalid pydash method: not_a_real_fn"⟩ ∧
    chainGetattr (ρ := String) (α := Int)
        (fun s => if s = "add" then some (.callableFn "add") else none)
        (.base 1) "add" = .ok ⟨.base 1, "add"⟩ := by
  constructor
  · exact chain_getattr_invalid_method.1 Int String
      (fun s => if s = "add" then some (.callableFn "add") else none)
      (.base 1) "not_a_real_fn" (by decide)
  · exact chain_getattr_invalid_method.2.2 Int String
      (fun s => if s = "add" then some (.callableFn "add") else none)
      (.base 1) "add" "add" (by decide)

/-! ## Path tokenizer (`src/pydash/utilities.py`)

The delimiter regex is
`RE_PATH_KEY_DELIM = re.compile(r"(?<!\\)(?:\\\\)*\.|(\[-?\d+\])")` and
`re.split` keeps the single capture group (the bracket text) in the result,
inserting Python `None` for matches where the group did not participate (the
dot alternative).  The scanner below reproduces `re.split` for this pattern:
left-to-right scanning, at each position first the dot alternative, then the
bracket alternative (their first characters are disjoint, so the order is
immaterial here).  Strings are embedded as `List Char`. -/

/-- Length of the maximal run of backslashes at the head of the string. -/
def takeBackslashes : List Char → Nat
  | [] => 0
  | c :: rest => if c = '\\' then takeBackslashes rest + 1 else 0

/-- One attempt of the first alternative `(?<!\\)(?:\\\\)*\.` of
`RE_PATH_KEY_DELIM` at the current position: `pb` says whether the character
immediately before the current position is a backslash (the negative
lookbehind).  The greedy pair run followed by `\.` succeeds exactly when the
maximal backslash run `r` at the position is even and followed by a literal
dot (with fewer pairs the next character would be a backslash, so backtracking
cannot succeed either); the match then spans `r + 1` characters. -/
def matchDotLen (pb : Bool) (cs : List Char) : Option Nat :=
  if pb then none
  else if takeBackslashes cs % 2 = 0 ∧ (cs.drop (takeBackslashes cs)).head? = some '.' then
    some (takeBackslashes cs + 1)
  else none

/-- The optional minus sign of the bracket alternative: consume a leading `-`
when present. -/
def stripMinus (cs : List Char) : List Char :=
  if cs.head? = some '-' then cs.tail else cs

/-- The tail of the bracket alternative, after the `[` and the optional minus
sign: one or more digits immediately followed by `]`; returns the number of
digits. -/
def bracketDigits (cs : List Char) : Option Nat :=
  if ¬(cs.takeWhile Char.isDigit).isEmpty ∧
      (cs.drop (cs.takeWhile Char.isDigit).length).head? = some ']' then
    some (cs.takeWhile Char.isDigit).length
  else none

/-- One attempt of the second alternative `(\[-?\d+\])` of `RE_PATH_KEY_DELIM`
at the current position: an opening bracket, an optional minus sign, one or
more digits, and a closing bracket.  Returns the length of the match.  (When
the minus sign is present but not followed by digits and `]`, dropping the
optional minus cannot help either — the next character would be the minus —
so the regex fails, as modelled.) -/
def matchBracketLen (cs : List Char) : Option Nat :=
  if cs.head? = some '[' then
    (bracketDigits (stripMinus cs.tail)).map
      (fun d => 1 + (if cs.tail.head? = some '-' then 1 else 0) + d + 1)
  else none

theorem matchDotLen_pos {pb : Bool} {cs : List Char} {n : Nat}
    (h : matchDotLen pb cs = some n) : 1 ≤ n := by
  unfold matchDotLen at h
  split at h
  · exact absurd h (by simp)
  · split at h
    · simp at h
      omega
    · exact absurd h (by simp)

theorem matchBracketLen_pos {cs : List Char} {n : Nat}
    (h : matchBracketLen cs = some n) : 1 ≤ n := by
  unfold matchBracketLen at h
  split at h
  · simp at h
    obtain ⟨a, -, rfl⟩ := h
    split <;> omega
  · exact absurd h (by simp)

/-- `RE_PATH_KEY_DELIM.split`, scanning left to right: on a match the pending
segment `acc` is flushed, followed by the single capture group — `none`
(Python `None`) when the dot alternative matched, the bracket text when the
bracket alternative matched — and scanning resumes after the match.  `pb`
tracks whether the previously consumed character of the original string was a
backslash (feeding the negative lookbehind).  `fuel` only bounds the number of
steps to make the recursion structural: every step consumes at least one
character, so `fuel = cs.length` (as supplied by `splitPath`) always suffices
and the exhaustion branch is unreachable (`splitGo_fuel_irrel`). -/
def splitGo : Nat → Bool → List Char → List Char → List (Option (List Char))
  | _, _, acc, [] => [some acc.reverse]
  | 0, _, acc, cs => [some (acc.reverse ++ cs)]
  | fuel + 1, pb, acc, c :: rest =>
    match matchDotLen pb (c :: rest) with
    | some n => some acc.reverse :: none :: splitGo fuel false [] ((c :: rest).drop n)
    | none =>
      match matchBracketLen (c :: rest) with
      | some n =>
        some acc.reverse :: some ((c :: rest).take n) ::
          splitGo fuel false [] ((c :: rest).drop n)
      | none => splitGo fuel (c == '\\') (c :: acc) rest

/-- The fuel of `splitGo` is immaterial as soon as it covers the length of the
remaining input: the exhaustion branch is dead code. -/
theorem splitGo_fuel_irrel :
    ∀ (fuel₁ fuel₂ : Nat) (pb : Bool) (acc cs : List Char),
      cs.length ≤ fuel₁ → cs.length ≤ fuel₂ →
      splitGo fuel₁ pb acc cs = splitGo fuel₂ pb acc cs := by
  intro fuel₁
  induction fuel₁ with
  | zero =>
    intro fuel₂ pb acc cs h₁ h₂
    cases cs with
    | nil => cases fuel₂ <;> rfl
    | cons c rest => simp at h₁
  | succ f₁ ih =>
    intro fuel₂ pb acc cs h₁ h₂
    cases cs with
    | nil => cases fuel₂ <;> rfl
    | cons c rest =>
      cases fuel₂ with
      | zero => simp at h₂
      | succ f₂ =>
        simp only [splitGo]
        rcases hd : matchDotLen pb (c :: rest) with _ | n
        · rcases hb : matchBracketLen (c :: rest) with _ | n
          · exact ih f₂ (c == '\\') (c :: acc) rest (by simp at h₁; omega)
              (by simp at h₂; omega)
          · have hn := matchBracketLen_pos hb
            have heq := ih f₂ false [] ((c :: rest).drop n)
              (by simp only [List.length_drop, List.length_cons] at *; omega)
              (by simp only [List.length_drop, List.length_cons] at *; omega)
            simp [heq]
        · have hn := matchDotLen_pos hd
          have heq := ih f₂ false [] ((c :: rest).drop n)
            (by simp only [List.length_drop, List.length_cons] at *; omega)
            (by simp only [List.length_drop, List.length_cons] at *; omega)
          simp [heq]

/-- `RE_PATH_KEY_DELIM.split(value)` on the characters of the path string; at
position 0 there is no preceding character, so the lookbehind passes. -/
def splitPath (cs : List Char) : List (Option (List Char)) :=
  splitGo cs.length false [] cs

/-- Python `str.replace` for a two-character pattern `[a, b]` replaced by the
single character `r`: left-to-right, non-overlapping occurrences. -/
def replacePair (a b r : Char) : List Char → List Char
  | x :: y :: rest =>
    if x = a ∧ y = b then r :: replacePair a b r rest
    else x :: replacePair a b r (y :: rest)
  | l => l

/-- `unescape_path_key`: first replaces every `\\` with `\`, then every `\.`
with `.`. -/
def unescape_path_key (key : List Char) : List Char :=
  replacePair '\\' '.' '.' (replacePair '\\' '\\' '\\' key)

/-- A path key: a Python string or integer. -/
inductive PKey where
  | str (s : List Char)
  | int (n : Int)
deriving DecidableEq

/-- The `default_factory` of a `PathToken`: `dict` (Mapping hint) or `list`
(Sequence hint). -/
inductive Factory where
  | dict
  | list
deriving DecidableEq

/-- `PathToken(key, default_factory)` from `src/pydash/utilities.py`. -/
structure PathToken where
  key : PKey
  default_factory : Factory
deriving DecidableEq

/-- `RE_PATH_LIST_INDEX.match(key)`: the whole string is `[`, an optional `-`,
one or more digits, and `]` (anchored on both sides). -/
def isListIndex (cs : List Char) : Bool :=
  (cs.head? == some '[') &&
    !((stripMinus cs.tail).takeWhile Char.isDigit).isEmpty &&
    ((stripMinus cs.tail).drop
        ((stripMinus cs.tail).takeWhile Char.isDigit).length == [']'])

/-- Decimal digits to a natural number. -/
def digitsToNat (ds : List Char) : Nat :=
  ds.foldl (fun acc c => acc * 10 + (c.toNat - '0'.toNat)) 0

/-- Python `int(key[1:-1])` for a bracket token `[-?<digits>]`: strip the
brackets and read the optionally negative decimal number. -/
def parseBracketInt (cs : List Char) : Int :=
  if ((cs.drop 1).dropLast).head? = some '-' then
    -(digitsToNat ((cs.drop 1).dropLast).tail : Int)
  else
    (digitsToNat ((cs.drop 1).dropLast) : Int)

/-- The raw path specification accepted by `to_path_tokens`: a string, a
number (modelled as an integer), the `UNSET` sentinel (from the helpers
module), or an already-split sequence of keys. -/
inductive PathSpec where
  | str (s : List Char)
  | num (n : Int)
  | unset
  | seq (ks : List PKey)

/-- An element of the result of `to_path_tokens`: a parsed `PathToken`, or an
element of an already-split input sequence passed through unchanged (the
`isinstance(token, PathToken)` test in `to_path` distinguishes the two
shapes). -/
inductive TokOut where
  | tok (t : PathToken)
  | raw (k : PKey)
deriving DecidableEq

/-- The test `"." in value or "[" in value`. -/
def hasPathSyntax (cs : List Char) : Bool :=
  cs.contains '.' || cs.contains '['

/-- The parts kept by `filter(None, RE_PATH_KEY_DELIM.split(value))`: drop the
`None` group captures and the empty-string segments. -/
def pathParts (cs : List Char) : List (List Char) :=
  ((splitPath cs).filterMap id).filter (fun l => !l.isEmpty)

/-- `to_path_tokens` from `src/pydash/utilities.py`: a string with path syntax
is split by `RE_PATH_KEY_DELIM` and each kept part becomes a `PathToken` — a
bracketed integer gets the parsed integer key with `default_factory=list`, any
other part gets the unescaped string key with `default_factory=dict`; a plain
string or number becomes a single dict-hinted token; `UNSET` becomes the empty
list; any other value (an already-split sequence) is returned unchanged. -/
def to_path_tokens : PathSpec → List TokOut
  | .str s =>
    if hasPathSyntax s then
      (pathParts s).map fun key =>
        if isListIndex key then .tok ⟨.int (parseBracketInt key), .list⟩
        else .tok ⟨.str (unescape_path_key key), .dict⟩
    else [.tok ⟨.str s, .dict⟩]
  | .num n => [.tok ⟨.int n, .dict⟩]
  | .unset => []
  | .seq ks => ks.map .raw

/-! ## Tokenizer lemmas and claims C4–C7 -/

theorem takeBackslashes_cons_ne {c : Char} (rest : List Char) (h : c ≠ '\\') :
    takeBackslashes (c :: rest) = 0 := by
  simp [takeBackslashes, h]

theorem matchDotLen_none_head {c : Char} (pb : Bool) (rest : List Char)
    (h1 : c ≠ '\\') (h2 : c ≠ '.') : matchDotLen pb (c :: rest) = none := by
  cases pb <;> simp [matchDotLen, takeBackslashes_cons_ne rest h1, h2]

theorem matchBracketLen_none_head {c : Char} (rest : List Char) (h : c ≠ '[') :
    matchBracketLen (c :: rest) = none := by
  simp [matchBracketLen, h]

theorem splitGo_step_plain {pb : Bool} {c : Char} {rest : List Char}
    (f : Nat) (acc : List Char)
    (h1 : matchDotLen pb (c :: rest) = none)
    (h2 : matchBracketLen (c :: rest) = none) :
    splitGo (f + 1) pb acc (c :: rest) = splitGo f (c == '\\') (c :: acc) rest := by
  simp [splitGo, h1, h2]

theorem splitGo_step_bracket {pb : Bool} {c : Char} {rest : List Char} {n : Nat}
    (f : Nat) (acc : List Char)
    (h1 : matchDotLen pb (c :: rest) = none)
    (h2 : matchBracketLen (c :: rest) = some n) :
    splitGo (f + 1) pb acc (c :: rest) =
      some acc.reverse :: some ((c :: rest).take n) ::
        splitGo f false [] ((c :: rest).drop n) := by
  simp [splitGo, h1, h2]

theorem splitGo_step_dot {pb : Bool} {c : Char} {rest : List Char} {n : Nat}
    (f : Nat) (acc : List Char)
    (h1 : matchDotLen pb (c :: rest) = some n) :
    splitGo (f + 1) pb acc (c :: rest) =
      some acc.reverse :: none :: splitGo f false [] ((c :: rest).drop n) := by
  simp [splitGo, h1]

theorem takeWhile_digits (ds rest : List Char) (hds : ∀ c ∈ ds, c.isDigit = true) :
    (ds ++ ']' :: rest).takeWhile Char.isDigit = ds := by
  induction ds with
  | nil =>
    rw [List.nil_append, List.takeWhile_cons, if_neg (by decide)]
  | cons d ds ih =>
    rw [List.cons_append, List.takeWhile_cons, if_pos (hds d (by simp)),
      ih (fun c hc => hds c (by simp [hc]))]

theorem not_dash_of_digit {d : Char} (hd : d.isDigit = true) : ¬(d = '-') := by
  intro h
  rw [h] at hd
  exact absurd hd (by decide)

theorem bracketDigits_digits (d : Char) (ds rest : List Char)
    (hd : d.isDigit = true) (hds : ∀ c ∈ ds, c.isDigit = true) :
    bracketDigits (d :: (ds ++ ']' :: rest)) = some (ds.length + 1) := by
  have hall : ∀ c ∈ d :: ds, c.isDigit = true := by
    intro c hc
    rcases List.mem_cons.mp hc with rfl | h
    · exact hd
    · exact hds c h
  have ht := takeWhile_digits (d :: ds) rest hall
  have hdrop : ((d :: ds) ++ ']' :: rest).drop (d :: ds).length = ']' :: rest :=
    List.drop_left _ _
  simp only [List.cons_append, List.length_cons] at ht hdrop
  unfold bracketDigits
  rw [ht, List.length_cons, hdrop]
  simp

theorem matchBracketLen_digits (d : Char) (ds rest : List Char)
    (hd : d.isDigit = true) (hds : ∀ c ∈ ds, c.isDigit = true) :
    matchBracketLen ('[' :: d :: (ds ++ ']' :: rest)) = some (ds.length + 3) := by
  have hdm := not_dash_of_digit hd
  have hb := bracketDigits_digits d ds rest hd hds
  simp [matchBracketLen, stripMinus, hdm, hb]
  omega

theorem isListIndex_digits (d : Char) (ds : List Char)
    (hd : d.isDigit = true) (hds : ∀ c ∈ ds, c.isDigit = true) :
    isListIndex ('[' :: d :: (ds ++ [']'])) = true := by
  have hdm := not_dash_of_digit hd
  have hall : ∀ c ∈ d :: ds, c.isDigit = true := by
    intro c hc
    rcases List.mem_cons.mp hc with rfl | h
    · exact hd
    · exact hds c h
  have ht := takeWhile_digits (d :: ds) [] hall
  have hdrop : ((d :: ds) ++ [']']).drop (d :: ds).length = [']'] :=
    List.drop_left _ _
  simp only [List.cons_append, List.length_cons] at ht hdrop
  simp [isListIndex, stripMinus, hdm, ht, hdrop]

theorem parseBracketInt_digits (d : Char) (ds : List Char) (hdm : ¬(d = '-')) :
    parseBracketInt ('[' :: d :: (ds ++ [']'])) = (digitsToNat (d :: ds) : Int) := by
  have h2 : ((d :: ds) ++ [']']).dropLast = d :: ds := List.dropLast_concat
  simp only [List.cons_append] at h2
  simp [parseBracketInt, h2, hdm]

theorem splitPath_bracket (d : Char) (ds : List Char)
    (hd : d.isDigit = true) (hds : ∀ c ∈ ds, c.isDigit = true) :
    splitPath ('a' :: '[' :: d :: (ds ++ ']' :: 'b' :: [])) =
      [some ['a'], some ('[' :: d :: (ds ++ [']'])), some ['b']] := by
  have hlen : ('a' :: '[' :: d :: (ds ++ ']' :: 'b' :: [])).length = ds.length + 5 := by
    simp
  rw [splitPath, hlen, show ds.length + 5 = (ds.length + 4) + 1 from by omega,
    splitGo_step_plain _ _ (matchDotLen_none_head _ _ (by decide) (by decide))
      (matchBracketLen_none_head _ (by decide)),
    show ('a' == '\\') = false from by decide,
    show ds.length + 4 = (ds.length + 3) + 1 from by omega,
    splitGo_step_bracket _ _ (matchDotLen_none_head _ _ (by decide) (by decide))
      (matchBracketLen_digits d ds ('b' :: []) hd hds)]
  have hsplit : '[' :: d :: (ds ++ ']' :: 'b' :: []) =
      ('[' :: d :: (ds ++ [']'])) ++ ['b'] := by simp
  have hblen : ('[' :: d :: (ds ++ [']'])).length = ds.length + 3 := by
    simp
  rw [hsplit, List.take_left' hblen, List.drop_left' hblen,
    show ds.length + 3 = (ds.length + 2) + 1 from by omega,
    splitGo_step_plain _ _ (matchDotLen_none_head _ _ (by decide) (by decide))
      (matchBracketLen_none_head _ (by decide))]
  simp [splitGo]

theorem takeBackslashes_replicate (m : Nat) (cs : List Char) :
    takeBackslashes (List.replicate m '\\' ++ '.' :: cs) = m := by
  induction m with
  | zero =>
    rw [List.replicate_zero, List.nil_append]
    simp [takeBackslashes]
  | succ k ih => simp [List.replicate_succ, takeBackslashes, ih]

/-- A dot at the end of an odd backslash run is protected: the dot alternative
of `RE_PATH_KEY_DELIM` cannot match starting at the run (odd parity), and
cannot match at any later position of the run or at the dot itself (the
lookbehind sees a backslash); this lemma is the run-start case, the scanner
state covers the others. -/
theorem matchDotLen_odd_backslashes (pb : Bool) (k : Nat) (cs : List Char) :
    matchDotLen pb (List.replicate (2 * k + 1) '\\' ++ '.' :: cs) = none := by
  have hm : (2 * k + 1) % 2 = 1 := by omega
  cases pb <;> simp [matchDotLen, takeBackslashes_replicate, hm]

/-- A dot after an even (possibly empty) backslash run whose start passes the
lookbehind IS matched by the dot alternative, consuming the run and the
dot. -/
theorem matchDotLen_even_backslashes (k : Nat) (cs : List Char) :
    matchDotLen false (List.replicate (2 * k) '\\' ++ '.' :: cs) =
      some (2 * k + 1) := by
  have hm : (2 * k) % 2 = 0 := by omega
  have hdrop : (List.replicate (2 * k) '\\' ++ '.' :: cs).drop (2 * k) = '.' :: cs := by
    simp
  simp [matchDotLen, takeBackslashes_replicate, hm, hdrop]

theorem to_path_tokens_bracket (d : Char) (ds : List Char)
    (hd : d.isDigit = true) (hds : ∀ c ∈ ds, c.isDigit = true) :
    to_path_tokens (.str ('a' :: '[' :: d :: (ds ++ ']' :: 'b' :: []))) =
      [.tok ⟨.str ['a'], .dict⟩, .tok ⟨.int (digitsToNat (d :: ds)), .list⟩,
        .tok ⟨.str ['b'], .dict⟩] := by
  have hdm := not_dash_of_digit hd
  have hsyn : hasPathSyntax ('a' :: '[' :: d :: (ds ++ ']' :: 'b' :: [])) = true := by
    simp [hasPathSyntax, List.contains_cons]
  rw [to_path_tokens, if_pos hsyn, pathParts, splitPath_bracket d ds hd hds]
  simp [List.filter, (by decide : isListIndex ['a'] = false),
    (by decide : isListIndex ['b'] = false),
    (by decide : unescape_path_key ['a'] = ['a']),
    (by decide : unescape_path_key ['b'] = ['b']),
    isListIndex_digits d ds hd hds, parseBracketInt_digits d ds hdm]

/-- C4: tokenizing `"a[0].b"` yields exactly the three tokens `a` (Mapping),
`0` (integer key, Sequence), `b` (Mapping); in general a bracketed integer
substring `[<digits>]` is a single Sequence-kind token whose key is the parsed
integer and acts itself as a delimiter with no dot required around it
(general conjunct, and the dotless `"a[-3]b"` with a negative index), and a
leading bracket with no preceding key segment is legal (`"[0].a"`). -/
theorem tokenize_bracket_integer :
    (∀ (d : Char) (ds : List Char), d.isDigit = true →
        (∀ c ∈ ds, c.isDigit = true) →
        to_path_tokens (.str ('a' :: '[' :: d :: (ds ++ ']' :: 'b' :: []))) =
          [.tok ⟨.str ['a'], .dict⟩, .tok ⟨.int (digitsToNat (d :: ds)), .list⟩,
            .tok ⟨.str ['b'], .dict⟩]) ∧
    to_path_tokens (.str ['a', '[', '0', ']', '.', 'b']) =
      [.tok ⟨.str ['a'], .dict⟩, .tok ⟨.int 0, .list⟩, .tok ⟨.str ['b'], .dict⟩] ∧
    to_path_tokens (.str ['a', '[', '-', '3', ']', 'b']) =
      [.tok ⟨.str ['a'], .dict⟩, .tok ⟨.int (-3), .list⟩,
        .tok ⟨.str ['b'], .dict⟩] ∧
    to_path_tokens (.str ['[', '0', ']', '.', 'a']) =
      [.tok ⟨.int 0, .list⟩, .tok ⟨.str ['a'], .dict⟩] :=
  ⟨to_path_tokens_bracket, by decide, by decide, by decide⟩

/-- Instantiation of the general conjunct of `tokenize_bracket_integer` at the
concrete input `"a[7]b"`. -/
theorem tokenize_bracket_integer_witness :
    to_path_tokens (.str ['a', '[', '7', ']', 'b']) =
      [.tok ⟨.str ['a'], .dict⟩, .tok ⟨.int 7, .list⟩,
        .tok ⟨.str ['b'], .dict⟩] := by
  have h := tokenize_bracket_integer.1 '7' [] (by decide) (by decide)
  simpa using h

/-- C5 counterexample: in the five-character string `a\\.b` (`a`, two
backslashes, dot, `b`) the dot IS immediately preceded by a backslash, yet the
code treats it as a delimiter (the even backslash run is consumed with the
dot), yielding the two tokens `a`, `b` — not the single token `a.b` the
claim's unescaping would produce. -/
theorem tokenize_escaped_dot_cex :
    to_path_tokens (.str ['a', '\\', '\\', '.', 'b']) =
      [.tok ⟨.str ['a'], .dict⟩, .tok ⟨.str ['b'], .dict⟩] ∧
    to_path_tokens (.str ['a', '\\', '\\', '.', 'b']) ≠
      [.tok ⟨.str ['a', '.', 'b'], .dict⟩] :=
  ⟨by decide, by decide⟩

/-- C5 (amended): a dot immediately preceded by an odd number of backslashes
is not a delimiter, while a dot at the end of an even (possibly empty)
backslash run whose start passes the lookbehind is a delimiter consuming the
run together with the dot; within a non-bracket segment the two-character
sequences `\.` and `\\` are unescaped to `.` and `\` after splitting; in
particular the four-character string `a\.b` yields exactly one Mapping-kind
token with the literal key `a.b`. -/
theorem tokenize_escaped_dot_amended :
    (∀ (pb : Bool) (k : Nat) (cs : List Char),
        matchDotLen pb (List.replicate (2 * k + 1) '\\' ++ '.' :: cs) = none) ∧
    (∀ (k : Nat) (cs : List Char),
        matchDotLen false (List.replicate (2 * k) '\\' ++ '.' :: cs) =
          some (2 * k + 1)) ∧
    unescape_path_key ['\\', '.'] = ['.'] ∧
    unescape_path_key ['\\', '\\'] = ['\\'] ∧
    to_path_tokens (.str ['a', '\\', '.', 'b']) =
      [.tok ⟨.str ['a', '.', 'b'], .dict⟩] :=
  ⟨matchDotLen_odd_backslashes, matchDotLen_even_backslashes,
    by decide, by decide, by decide⟩

/-- C6 counterexample: for the already-split input sequence `[0, "a"]` the
code returns the sequence unchanged — raw keys, not `PathToken`s — so the
integer element `0` does not become a Sequence-hinted `PathToken`. -/
theorem tokenize_sequence_cex :
    to_path_tokens (.seq [.int 0, .str ['a']]) =
      [.raw (.int 0), .raw (.str ['a'])] ∧
    to_path_tokens (.seq [.int 0, .str ['a']]) ≠
      [.tok ⟨.int 0, .list⟩, .tok ⟨.str ['a'], .dict⟩] :=
  ⟨by decide, by decide⟩

/-- C6 (amended): an input that is already a sequence of keys is passed
through entirely unchanged — each element stays a raw key, no `PathToken`
wrapping and no container hint is attached, and no further parsing of the
elements is performed. -/
theorem tokenize_sequence_amended :
    ∀ (ks : List PKey), to_path_tokens (.seq ks) = ks.map .raw :=
  fun _ => rfl

/-- C7: the empty string yields exactly one Mapping-kind token whose key is
the empty string; the `UNSET` sentinel yields the empty path; and strings with
trailing or consecutive delimiters (`"a.b."`, `"a..b"`) yield only the
non-empty-segment tokens, with no phantom empty-key tokens. -/
theorem tokenize_edge_cases :
    to_path_tokens (.str []) = [.tok ⟨.str [], .dict⟩] ∧
    to_path_tokens .unset = [] ∧
    to_path_tokens (.str ['a', '.', 'b', '.']) =
      [.tok ⟨.str ['a'], .dict⟩, .tok ⟨.str ['b'], .dict⟩] ∧
    to_path_tokens (.str ['a', '.', '.', 'b']) =
      [.tok ⟨.str ['a'], .dict⟩, .tok ⟨.str ['b'], .dict⟩] :=
  ⟨by decide, rfl, by decide, by decide⟩

/-! ## `retry` (C3, `src/pydash/utilities.py`)

The decorated function loops `attempt` from 1 to `attempts`; on success it
returns, on a retryable exception it first calls `on_exception(exc, attempt)`
when supplied, then re-raises if this was the final attempt, otherwise sleeps
and continues.  Delays only sleep (no observable effect on the value
semantics; the claim fixes `delay=0`), so the embedding tracks the number of
invocations of the wrapped function, the `(exc, attempt)` arguments of the
successive `on_exception` invocations, and the final outcome (`none` encodes
loop exhaustion, which validation of `attempts >= 1` makes unreachable). -/

/-- One execution of the retry loop body starting at attempt number `i` with
`fuel` attempts remaining (`fuel = attempts - i + 1`; the test
`attempt == attempts` is `fuel = 1`).  `func i` is the outcome of the `i`-th
invocation of the wrapped function.  Returns the number of invocations of the
wrapped function, the `(exc, attempt)` invocations of `on_exception` in order,
and the outcome. -/
def retryGo (func : Nat → Except ε α) (i : Nat) :
    Nat → Nat × List (ε × Nat) × Option (Except ε α)
  | 0 => (0, [], none)
  | fuel + 1 =>
    match func i with
    | .ok v => (1, [], some (.ok v))
    | .error e =>
      if fuel = 0 then (1, [(e, i)], some (.error e))
      else
        let r := retryGo func (i + 1) fuel
        (r.1 + 1, (e, i) :: r.2.1, r.2.2)

/-- The decorated function produced by `retry(attempts=n, delay=0, ...)`:
run the loop from attempt 1 with `attempts` attempts remaining. -/
def retryRun (func : Nat → Except ε α) (attempts : Nat) :
    Nat × List (ε × Nat) × Option (Except ε α) :=
  retryGo func 1 attempts

theorem retryGo_all_fail (exc : Nat → ε) :
    ∀ (k i : Nat),
      retryGo (α := α) (fun j => .error (exc j)) i (k + 1) =
        (k + 1, (List.range (k + 1)).map (fun j => (exc (i + j), i + j)),
          some (.error (exc (i + k)))) := by
  intro k
  induction k with
  | zero =>
    intro i
    simp [retryGo, List.range_succ]
  | succ f ih =>
    intro i
    have hih := ih (i + 1)
    have hstep :
        retryGo (α := α) (fun j => Except.error (exc j)) i (f + 1 + 1) =
          ((retryGo (α := α) (fun j => Except.error (exc j)) (i + 1) (f + 1)).1 + 1,
            (exc i, i) ::
              (retryGo (α := α) (fun j => Except.error (exc j)) (i + 1) (f + 1)).2.1,
            (retryGo (α := α) (fun j => Except.error (exc j)) (i + 1) (f + 1)).2.2) := by
      simp [retryGo]
    rw [hstep, hih]
    have harith : i + 1 + f = i + (f + 1) := by omega
    rw [harith]
    refine congrArg₂ _ rfl (congrArg₂ _ ?_ rfl)
    rw [show List.range (f + 1 + 1) = 0 :: (List.range (f + 1)).map Nat.succ from
      List.range_succ_eq_map (f + 1), List.map_cons, List.map_map]
    refine congrArg₂ _ (by simp) ?_
    apply List.map_congr_left
    intro j hj
    have h1 : i + 1 + j = i + (j + 1) := by omega
    simp [Function.comp, h1]

/-- C3: wrapping a function that raises a retryable exception on every
invocation with `retry(attempts=n, delay=0)` invokes the function exactly `n`
times, invokes `on_exception` exactly `n` times — once per caught exception
with the attempt count, including the final one, immediately before the
re-raise — and re-raises the exception of the final attempt. -/
theorem retry_always_raising (exc : Nat → ε) (attempts : Nat)
    (h : 1 ≤ attempts) :
    retryRun (α := α) (fun j => .error (exc j)) attempts =
      (attempts, (List.range attempts).map (fun j => (exc (j + 1), j + 1)),
        some (.error (exc attempts))) := by
  obtain ⟨m, rfl⟩ : ∃ m, attempts = m + 1 := ⟨attempts - 1, by omega⟩
  rw [retryRun, retryGo_all_fail exc m 1]
  have h1 : 1 + m = m + 1 := by omega
  rw [h1]
  refine congrArg₂ _ rfl (congrArg₂ _ ?_ rfl)
  apply List.map_congr_left
  intro j hj
  have h2 : 1 + j = j + 1 := by omega
  rw [h2]

/-- Instantiation of `retry_always_raising` at `attempts = 3` with the
exception value equal to the attempt number: three invocations, three
observer calls `(1,1), (2,2), (3,3)`, and the final exception `3`
re-raised. -/
theorem retry_always_raising_witness :
    retryRun (α := Unit) (fun j => .error j) 3 =
      (3, [(1, 1), (2, 2), (3, 3)], some (.error 3)) := by
  have h := retry_always_raising (α := Unit) (fun j => j) 3 (by decide)
  simpa using h

/-! ## `attempt` (C9, `src/pydash/utilities.py`)

`attempt` runs `func(*args, **kwargs)` in a `try` block whose `except` clause
catches `Exception` instances and binds the caught object as the result.  A
Python raise is either an `Exception` instance (caught) or a `BaseException`
that is not an `Exception` (e.g. `KeyboardInterrupt`; not caught, it keeps
propagating). -/

/-- A raised Python exception: an `Exception` instance, or a `BaseException`
that is not an `Exception` instance. -/
inductive PyRaise (ε β : Type) where
  | exception (e : ε)
  | baseException (b : β)
deriving DecidableEq

/-- `attempt(func, *args, **kwargs)`: the call `func args` either returns
normally (`.ok`) or raises.  `attempt` returns the normal result (`Sum.inl`)
or the caught `Exception` object itself as the result (`Sum.inr`); a
non-`Exception` raise is not caught and propagates. -/
def attempt (func : List α → Except (PyRaise ε β) α) (args : List α) :
    Except (PyRaise ε β) (α ⊕ ε) :=
  match func args with
  | .ok v => .ok (.inl v)
  | .error (.exception e) => .ok (.inr e)
  | .error (.baseException b) => .error (.baseException b)

/-- C9: for every callable and arguments, `attempt` returns the function's
result when it returns normally, and returns the caught exception object as
the result (instead of propagating) when the function raises an `Exception`
instance. -/
theorem attempt_result_or_exception :
    (∀ (α ε β : Type) (func : List α → Except (PyRaise ε β) α) (args : List α)
        (v : α), func args = .ok v → attempt func args = .ok (.inl v)) ∧
    (∀ (α ε β : Type) (func : List α → Except (PyRaise ε β) α) (args : List α)
        (e : ε), func args = .error (.exception e) →
      attempt func args = .ok (.inr e)) := by
  constructor <;>
    · intro α ε β func args x h
      simp [attempt, h]

/-- Instantiation of `attempt_result_or_exception`: a function returning its
argument list length gives that result; a function always raising
`ZeroDivisionError` (modelled as an exception value) gives the caught
exception as the result. -/
theorem attempt_result_or_exception_witness :
    attempt (ε := String) (β := String)
        (fun args => .ok args.length) [0, 0] = .ok (.inl 2) ∧
    attempt (ε := String) (β := String) (α := Int)
        (fun _ => .error (.exception "ZeroDivisionError")) [1] =
      .ok (.inr "ZeroDivisionError") := by
  constructor
  · exact attempt_result_or_exception.1 Nat String String
      (fun args => .ok args.length) [0, 0] 2 rfl
  · exact attempt_result_or_exception.2 Int String String
      (fun _ => .error (.exception "ZeroDivisionError")) [1]
      "ZeroDivisionError" rfl

/-! ## `memoize` (C10, `src/pydash/utilities.py`)

With no `resolver`, the cache key is the f-string `f"{args}{kwargs}"` — the
`str()` of the positional-argument tuple followed by the `str()` of the
keyword-argument dict.  The cache is a dict from key string to stored result,
and the wrapped function is invoked only when the key is absent. -/

/-- A Python value as it can appear among memoized-call arguments: an integer,
a string, a boolean, or an instance of some user class carrying its identity
and the string its `__repr__` produces (distinct objects may share a repr). -/
inductive PyVal where
  | int (n : Int)
  | str (s : String)
  | bool (b : Bool)
  | obj (id : Nat) (rep : String)
deriving DecidableEq

/-- Python `repr()` of the supported value shapes (the string case covers
strings without quote or escape characters, rendered with single quotes). -/
def pyRepr : PyVal → String
  | .int n => toString n
  | .str s => "'" ++ s ++ "'"
  | .bool b => if b then "True" else "False"
  | .obj _ r => r

/-- Comma-space separated concatenation, as inside Python tuple/dict
displays. -/
def commaSep : List String → String
  | [] => ""
  | [x] => x
  | x :: xs => x ++ ", " ++ commaSep xs

/-- Python `str()` of a tuple of values: `()`, `(x,)`, or `(x, y, ...)`, with
the elements rendered by `repr`. -/
def pyStrTuple (args : List PyVal) : String :=
  match args with
  | [] => "()"
  | [a] => "(" ++ pyRepr a ++ ",)"
  | _ => "(" ++ commaSep (args.map pyRepr) ++ ")"

/-- Python `str()` of a keyword-argument dict (insertion ordered): `{}` or
`{'k': v, ...}` with values rendered by `repr`. -/
def pyStrDict (kwargs : List (String × PyVal)) : String :=
  match kwargs with
  | [] => "\x7b\x7d"
  | _ =>
    "\x7b" ++ commaSep (kwargs.map fun kv => "'" ++ kv.1 ++ "': " ++ pyRepr kv.2) ++
      "\x7d"

/-- The default cache key `f"{args}{kwargs}"` of a memoized call. -/
def keyFor (args : List PyVal) (kwargs : List (String × PyVal)) : String :=
  pyStrTuple args ++ pyStrDict kwargs

/-- Lookup in the cache dict (`key not in memoized.cache` /
`memoized.cache[key]`). -/
def cacheLookup : List (String × PyVal) → String → Option PyVal
  | [], _ => none
  | (k, v) :: rest, key => if k = key then some v else cacheLookup rest key

/-- One call of the memoized wrapper (no `resolver`): compute the key; if it
is absent from the cache, invoke `func` once and store the result; return the
cached value.  Returns the result, the updated cache, and the number of
invocations of `func` this call performed. -/
def memoizedCall (func : List PyVal → List (String × PyVal) → PyVal)
    (cache : List (String × PyVal)) (args : List PyVal)
    (kwargs : List (String × PyVal)) :
    PyVal × List (String × PyVal) × Nat :=
  match cacheLookup cache (keyFor args kwargs) with
  | some v => (v, cache, 0)
  | none =>
    (func args kwargs, cache ++ [(keyFor args kwargs, func args kwargs)], 1)

/-- C10: with no resolver the cache key is the string of the positional tuple
and keyword dict; a call whose key is absent invokes `func` exactly once and
stores the result under that key; a call whose key is present returns the
stored value with zero invocations; hence two calls with distinct arguments
but equal key strings share one cache entry, and the second returns the
first call's result without invoking `func`. -/
theorem memoize_default_key_caching :
    (∀ (func : List PyVal → List (String × PyVal) → PyVal)
        (cache : List (String × PyVal)) (args : List PyVal)
        (kwargs : List (String × PyVal)),
      cacheLookup cache (keyFor args kwargs) = none →
      memoizedCall func cache args kwargs =
        (func args kwargs,
          cache ++ [(keyFor args kwargs, func args kwargs)], 1)) ∧
    (∀ (func : List PyVal → List (String × PyVal) → PyVal)
        (cache : List (String × PyVal)) (args : List PyVal)
        (kwargs : List (String × PyVal)) (v : PyVal),
      cacheLookup cache (keyFor args kwargs) = some v →
      memoizedCall func cache args kwargs = (v, cache, 0)) ∧
    (∀ (func : List PyVal → List (String × PyVal) → PyVal)
        (a1 a2 : List PyVal) (k1 k2 : List (String × PyVal)),
      (a1, k1) ≠ (a2, k2) → keyFor a1 k1 = keyFor a2 k2 →
      memoizedCall func (memoizedCall func [] a1 k1).2.1 a2 k2 =
        (func a1 k1, (memoizedCall func [] a1 k1).2.1, 0)) := by
  refine ⟨?_, ?_, ?_⟩
  · intro func cache args kwargs h
    simp [memoizedCall, h]
  · intro func cache args kwargs v h
    simp [memoizedCall, h]
  · intro func a1 a2 k1 k2 hne hkey
    simp [memoizedCall, cacheLookup, hkey]

/-- Instantiation of `memoize_default_key_caching`: two distinct objects with
the same `repr` string `X` produce the same key `(X,){}`; after memoizing a
function that returns its first argument, the second call returns the FIRST
call's result (the stored `obj 0`) without invoking the function, although its
own argument is `obj 1`. -/
theorem memoize_default_key_caching_witness :
    memoizedCall
        (fun args _ => args.headD (.int 0))
        (memoizedCall (fun args _ => args.headD (.int 0)) []
          [.obj 0 "X"] []).2.1
        [.obj 1 "X"] [] =
      (.obj 0 "X",
        (memoizedCall (fun args _ => args.headD (.int 0)) []
          [.obj 0 "X"] []).2.1, 0) := by
  have h := memoize_default_key_caching.2.2 (fun args _ => args.headD (.int 0))
    [.obj 0 "X"] [.obj 1 "X"] [] [] (by decide) (by decide)
  simpa using h

/-! ## `ChainWrapper` argument capture and aliasing (C8, `pydash/chaining.py`)

`ChainWrapper.__call__` executes `self.args = args; self.kargs = kargs` and
returns `Chain(self)`: the produced Chain holds a reference to the SAME
wrapper object, and a later call of the same wrapper overwrites `args` in
place.  To express this aliasing, wrappers live in an explicit store indexed
by object identity; a chain `_value` is a plain value or a reference into the
store. -/

/-- A `Chain._value` in the store model: a plain (non-wrapper) value, or a
reference to the `ChainWrapper` object with the given identity. -/
inductive ChainUp (α : Type) where
  | base (v : α)
  | ref (i : Nat)
deriving DecidableEq

/-- A `ChainWrapper` object: its `_value` (upstream), its registry method,
and its currently captured args (empty right after `Chain.__getattr__` builds
it). -/
structure CWObj (α ρ : Type) where
  upVal : ChainUp α
  method : ρ
  args : List α
deriving DecidableEq

/-- `ChainWrapper.__call__(*args)` on the wrapper with identity `i`:
overwrite the captured `args` of that object in place and return a new
`Chain` whose `_value` is a reference to the same wrapper object. -/
def wrapperCall (st : List (CWObj α ρ)) (i : Nat) (args : List α) :
    List (CWObj α ρ) × ChainUp α :=
  match st.get? i with
  | some w => (st.set i { w with args := args }, .ref i)
  | none => (st, .ref i)

/-- `ChainWrapper.unwrap` / `Chain.value` in the store model: resolve the
upstream `_value` first (dereferencing wrapper references against the current
store), then invoke the method on the resolved value and the args currently
captured in the store.  `fuel` bounds the dereferencing depth (chains are
finite and acyclic); `none` is a dangling reference or exhausted fuel. -/
def unwrapRef (interp : ρ → α → List α → α) (st : List (CWObj α ρ)) :
    Nat → ChainUp α → Option α
  | _, .base v => some v
  | 0, .ref _ => none
  | fuel + 1, .ref i =>
    match st.get? i with
    | none => none
    | some w =>
      match unwrapRef interp st fuel w.upVal with
      | none => none
      | some v => some (interp w.method v w.args)

theorem listGetSet_self :
    ∀ (l : List β) (i : Nat) (a b : β), l.get? i = some b →
      (l.set i a).get? i = some a := by
  intro l
  induction l with
  | nil => intro i a b h; simp [List.get?] at h
  | cons x xs ih =>
    intro i a b h
    cases i with
    | zero => simp [List.set]
    | succ j =>
      simp only [List.get?] at h
      simp only [List.set, List.get?]
      exact ih j a b h

/-- C8 counterexample: build the wrapper for `chain(3).add` (store slot 0),
invoke it with `4` — producing the chain `c₁ = chain(3).add(4)`, which
resolves to `7` — then invoke the SAME wrapper again with `5`.  Afterwards
`c₁` resolves to `add(3, 5) = 8`, not `7`: the later invocation of the same
builder changed the args the previously produced chain resolves with. -/
theorem chainwrapper_recapture_cex :
    unwrapRef specRegistry (wrapperCall [⟨.base 3, "add", []⟩] 0 [4]).1 1
        (wrapperCall [⟨.base 3, "add", []⟩] 0 [4]).2 = some 7 ∧
    unwrapRef specRegistry
        (wrapperCall (wrapperCall [⟨.base 3, "add", []⟩] 0 [4]).1 0 [5]).1 1
        (wrapperCall [⟨.base 3, "add", []⟩] 0 [4]).2 = some 8 ∧
    (some 8 : Option Int) ≠ some 7 :=
  ⟨by decide, by decide, by decide⟩

/-- C8 (amended): invoking the same builder again overwrites the captured
args in place — the wrapper keeps its operation and upstream, but its args
become the newest ones — and a chain produced by an earlier invocation
aliases the same wrapper object, so it resolves with the latest captured
args. -/
theorem chainwrapper_recapture_amended :
    ∀ (α ρ : Type) (interp : ρ → α → List α → α) (st : List (CWObj α ρ))
      (i : Nat) (w : CWObj α ρ) (a1 a2 : List α) (fuel : Nat),
      st.get? i = some w →
      (wrapperCall (wrapperCall st i a1).1 i a2).1.get? i =
          some ⟨w.upVal, w.method, a2⟩ ∧
      unwrapRef interp (wrapperCall (wrapperCall st i a1).1 i a2).1 (fuel + 1)
          (wrapperCall st i a1).2 =
        (unwrapRef interp (wrapperCall (wrapperCall st i a1).1 i a2).1 fuel
            w.upVal).map (fun v => interp w.method v a2) := by
  intro α ρ interp st i w a1 a2 fuel h
  have h1 : wrapperCall st i a1 = (st.set i { w with args := a1 }, .ref i) := by
    unfold wrapperCall
    rw [h]
  have hg1 : (st.set i { w with args := a1 }).get? i = some { w with args := a1 } :=
    listGetSet_self st i _ w h
  have h2 : wrapperCall (st.set i { w with args := a1 }) i a2 =
      ((st.set i { w with args := a1 }).set i { w with args := a2 }, .ref i) := by
    unfold wrapperCall
    rw [hg1]
  have hg2 : ((st.set i { w with args := a1 }).set i { w with args := a2 }).get? i =
      some { w with args := a2 } :=
    listGetSet_self _ i _ _ hg1
  rw [h1]
  simp only [h2]
  refine ⟨hg2, ?_⟩
  simp only [unwrapRef]
  rw [hg2]
  cases h3 : unwrapRef interp
      ((st.set i { w with args := a1 }).set i { w with args := a2 }) fuel
      w.upVal with
  | none =>
    simp only [List.set_set] at h3
    simp [h3]
  | some v =>
    simp only [List.set_set] at h3
    simp [h3]

/-- Instantiation of `chainwrapper_recapture_amended` at the concrete
counterexample store: after re-invoking slot 0 with `[5]`, the slot holds
args `[5]` and the first chain resolves through `add` with `[5]`. -/
theorem chainwrapper_recapture_amended_witness :
    (wrapperCall (wrapperCall [(⟨.base 3, "add", []⟩ : CWObj Int String)] 0 [4]).1
        0 [5]).1.get? 0 = some ⟨.base 3, "add", [5]⟩ ∧
    unwrapRef specRegistry
        (wrapperCall (wrapperCall [(⟨.base 3, "add", []⟩ : CWObj Int String)] 0 [4]).1
          0 [5]).1 1
        (wrapperCall [(⟨.base 3, "add", []⟩ : CWObj Int String)] 0 [4]).2 =
      (unwrapRef specRegistry
          (wrapperCall (wrapperCall [(⟨.base 3, "add", []⟩ : CWObj Int String)] 0 [4]).1
            0 [5]).1 0 (.base 3)).map (fun v => specRegistry "add" v [5]) :=
  chainwrapper_recapture_amended Int String specRegistry
    [⟨.base 3, "add", []⟩] 0 ⟨.base 3, "add", []⟩ [4] [5] 0 (by decide)
